import Mathlib

/-!
Verification model of `lib/jpegli/dct.cc` (forward DCT + quantization stage of
the jpegli encoder) and of the appended butteraugli comparison tool's `main`.

Buffers are modelled as total functions `ℕ → ℚ` (a C pointer into a float
buffer); float arithmetic is modelled exactly over `ℚ`, with the float
literals of the source carried over as rational literals.  All SIMD
operations in the source are lane-wise except the transposes, which are
modelled per target below; lane-wise kernels are modelled per lane.
-/

namespace jpegli

/-- Round to nearest, ties to even: the semantics of the SIMD `Round`
operation used by `QuantizeBlock` / `QuantizeBlockNoAQ`. -/
def roundTiesToEven (x : ℚ) : ℤ :=
  let f := ⌊x⌋
  let r := x - (f : ℚ)
  if r < 1 / 2 then f
  else if 1 / 2 < r then f + 1
  else if f % 2 = 0 then f else f + 1

/-- Round to nearest, ties away from zero: the semantics of `std::round`
used for the DC coefficient override. -/
def roundHalfAway (x : ℚ) : ℤ :=
  if 0 ≤ x then ⌊x + 1 / 2⌋ else -⌊-x + 1 / 2⌋

/-- Saturating demotion of an integer to the signed 16-bit coefficient
range, modelling `ConvertTo(di, ·)` followed by `DemoteTo(di16, ·)`. -/
def demoteToI16 (z : ℤ) : ℤ :=
  max (-32768) (min 32767 z)

/-- AddReverse<N>(ain1, ain2, aout): `aout[i] = ain1[i] + ain2[N-1-i]`. -/
def addReverse (n : ℕ) (ain1 ain2 : ℕ → ℚ) : ℕ → ℚ :=
  fun i => ain1 i + ain2 (n - i - 1)

/-- SubReverse<N>(ain1, ain2, aout): `aout[i] = ain1[i] - ain2[N-1-i]`. -/
def subReverse (n : ℕ) (ain1 ain2 : ℕ → ℚ) : ℕ → ℚ :=
  fun i => ain1 i - ain2 (n - i - 1)

/-- The float literal `kSqrt2 = 1.41421356237f` of `B<N>`. -/
def kSqrt2 : ℚ := 1.41421356237

/-- B<N>(coeff): `coeff[0] = sqrt2*coeff[0] + coeff[1]`, then
`coeff[i] = coeff[i] + coeff[i+1]` for `1 ≤ i < N-1` (each write reads
only not-yet-overwritten entries, so the functional form reads the
original buffer), last entry unchanged. -/
def B (n : ℕ) (coeff : ℕ → ℚ) : ℕ → ℚ :=
  fun i =>
    if i = 0 then kSqrt2 * coeff 0 + coeff 1
    else if i + 1 < n then coeff i + coeff (i + 1)
    else coeff i

/-- WcMultipliers<N>::kMultipliers, the precomputed values
`1 / (2 cos((i + 0.5) π / N))`; the source instantiates only N = 4, 8. -/
def wcMultipliers : ℕ → ℕ → ℚ
  | 4 => fun i => if i = 0 then 0.541196100146197 else 1.3065629648763764
  | 8 => fun i =>
      if i = 0 then 0.5097955791041592
      else if i = 1 then 0.6013448869350453
      else if i = 2 then 0.8999762231364156
      else 2.5629154477415055
  | _ => fun _ => 0

/-- Multiply<N>(coeff): `coeff[N/2+i] *= kMultipliers[i]` for `i < N/2`,
lower half untouched. -/
def Multiply (n : ℕ) (coeff : ℕ → ℚ) : ℕ → ℚ :=
  fun i =>
    if n / 2 ≤ i ∧ i < n then wcMultipliers n (i - n / 2) * coeff i
    else coeff i

/-- InverseEvenOdd<N>(ain, aout): `aout[2i] = ain[i]` for `i < N/2`,
`aout[2i+1] = ain[N/2+i]`. -/
def inverseEvenOdd (n : ℕ) (ain : ℕ → ℚ) : ℕ → ℚ :=
  fun j =>
    if j < n then (if j % 2 = 0 then ain (j / 2) else ain (n / 2 + j / 2))
    else ain j

/-- DCT1DImpl<1>: identity. -/
def dct1dImpl1 (mem : ℕ → ℚ) : ℕ → ℚ := mem

/-- DCT1DImpl<2>: one add/subtract butterfly. -/
def dct1dImpl2 (mem : ℕ → ℚ) : ℕ → ℚ :=
  fun i =>
    if i = 0 then mem 0 + mem 1
    else if i = 1 then mem 0 - mem 1
    else mem i

/-- Body of the generic `DCT1DImpl<N>`, with the recursive call
`DCT1DImpl<N/2>` passed as `rec`.  Mirrors the source statement order:
AddReverse, recursion on the sum half, SubReverse, Multiply<N> (which
touches only the difference half), recursion on the difference half,
B<N/2>, InverseEvenOdd<N>. -/
def dct1dStep (n : ℕ) (rec : (ℕ → ℚ) → ℕ → ℚ) (mem : ℕ → ℚ) : ℕ → ℚ :=
  let tmp1 := addReverse (n / 2) mem (fun j => mem (n / 2 + j))
  let tmp2 := rec tmp1
  let tmp3 := subReverse (n / 2) mem (fun j => mem (n / 2 + j))
  let tmp4 := Multiply n (fun j => if j < n / 2 then tmp2 j else tmp3 (j - n / 2))
  let tmp5 := rec (fun j => tmp4 (n / 2 + j))
  let tmp6 := B (n / 2) tmp5
  inverseEvenOdd n (fun j => if j < n / 2 then tmp4 j else tmp6 (j - n / 2))

/-- DCT1DImpl<4>, the template body instantiated at N = 4. -/
def dct1dImpl4 : (ℕ → ℚ) → ℕ → ℚ := dct1dStep 4 dct1dImpl2

/-- DCT1DImpl<8>, the template body instantiated at N = 8. -/
def dct1dImpl8 : (ℕ → ℚ) → ℕ → ℚ := dct1dStep 8 dct1dImpl4

/-- DCT1D: per output column `c = j % 8`, load column `c` of the pixel
window (`LoadFromBlock`), run `DCT1DImpl<8>` along rows, and scale by
`1/8` (`StoreToBlockAndScale`); `pixels i j` is the float at
`pixels + i * pixels_stride + j`. -/
def DCT1D (pixels : ℕ → ℕ → ℚ) : ℕ → ℚ :=
  fun j => (1 / 8) * dct1dImpl8 (fun i => pixels i (j % 8)) (j / 8)

/-! ### 8x8 transpose: three target-dependent strategies -/

/-- InterleaveLower on an 8-lane float vector (two 128-bit blocks of 4
lanes each): per block, `a0 b0 a1 b1`. -/
def interleaveLower8 (a b : ℕ → ℚ) : ℕ → ℚ :=
  fun l =>
    if l % 4 % 2 = 0 then a (4 * (l / 4) + l % 4 / 2)
    else b (4 * (l / 4) + l % 4 / 2)

/-- InterleaveUpper on an 8-lane float vector: per 128-bit block,
`a2 b2 a3 b3`. -/
def interleaveUpper8 (a b : ℕ → ℚ) : ℕ → ℚ :=
  fun l =>
    if l % 4 % 2 = 0 then a (4 * (l / 4) + 2 + l % 4 / 2)
    else b (4 * (l / 4) + 2 + l % 4 / 2)

/-- ConcatLowerLower(d, hi, lo): lower half of `lo` then lower half of
`hi`. -/
def concatLowerLower (hi lo : ℕ → ℚ) : ℕ → ℚ :=
  fun l => if l < 4 then lo l else hi (l - 4)

/-- ConcatUpperUpper(d, hi, lo): upper half of `lo` then upper half of
`hi`. -/
def concatUpperUpper (hi lo : ℕ → ℚ) : ℕ → ℚ :=
  fun l => if l < 4 then lo (l + 4) else hi l

/-- InterleaveLower on a 4-lane float vector: `a0 b0 a1 b1`. -/
def interleaveLower4 (a b : ℕ → ℚ) : ℕ → ℚ :=
  fun l => if l % 2 = 0 then a (l / 2) else b (l / 2)

/-- InterleaveUpper on a 4-lane float vector: `a2 b2 a3 b3`. -/
def interleaveUpper4 (a b : ℕ → ℚ) : ℕ → ℚ :=
  fun l => if l % 2 = 0 then a (2 + l / 2) else b (2 + l / 2)

/-- Transpose8x8Block, `HWY_CAP_GE256` branch: full-width (8-lane)
interleave-based transpose.  Output position `j = 8*n + m` reads lane
`m` of the vector stored at `to + n*8`. -/
def transpose8x8Block256 (f : ℕ → ℚ) : ℕ → ℚ :=
  let i0 : ℕ → ℚ := fun l => f (0 * 8 + l)
  let i1 : ℕ → ℚ := fun l => f (1 * 8 + l)
  let i2 : ℕ → ℚ := fun l => f (2 * 8 + l)
  let i3 : ℕ → ℚ := fun l => f (3 * 8 + l)
  let i4 : ℕ → ℚ := fun l => f (4 * 8 + l)
  let i5 : ℕ → ℚ := fun l => f (5 * 8 + l)
  let i6 : ℕ → ℚ := fun l => f (6 * 8 + l)
  let i7 : ℕ → ℚ := fun l => f (7 * 8 + l)
  let q0 := interleaveLower8 i0 i2
  let q1 := interleaveLower8 i1 i3
  let q2 := interleaveUpper8 i0 i2
  let q3 := interleaveUpper8 i1 i3
  let q4 := interleaveLower8 i4 i6
  let q5 := interleaveLower8 i5 i7
  let q6 := interleaveUpper8 i4 i6
  let q7 := interleaveUpper8 i5 i7
  let r0 := interleaveLower8 q0 q1
  let r1 := interleaveUpper8 q0 q1
  let r2 := interleaveLower8 q2 q3
  let r3 := interleaveUpper8 q2 q3
  let r4 := interleaveLower8 q4 q5
  let r5 := interleaveUpper8 q4 q5
  let r6 := interleaveLower8 q6 q7
  let r7 := interleaveUpper8 q6 q7
  let o0 := concatLowerLower r4 r0
  let o1 := concatLowerLower r5 r1
  let o2 := concatLowerLower r6 r2
  let o3 := concatLowerLower r7 r3
  let o4 := concatUpperUpper r4 r0
  let o5 := concatUpperUpper r5 r1
  let o6 := concatUpperUpper r6 r2
  let o7 := concatUpperUpper r7 r3
  fun j =>
    if j < 64 then
      (match j / 8 with
        | 0 => o0 | 1 => o1 | 2 => o2 | 3 => o3
        | 4 => o4 | 5 => o5 | 6 => o6 | _ => o7) (j % 8)
    else f j

/-- Transpose8x8Block, 128-bit branch (`HWY_TARGET != HWY_SCALAR`):
4-lane block transpose over the four 4x4 quadrants.  The source stores
vector `r_t` of quadrant `(n, m)` at `to + (t + m)*8 + n`; here the
stores are inverted into reads: output `j = 8*row + col` lies in the
quadrant with `m = 4*(row/4)`, `n = 4*(col/4)`, at `t = row % 4`,
lane `col % 4`. -/
def transpose8x8Block128 (f : ℕ → ℚ) : ℕ → ℚ :=
  fun j =>
    if j < 64 then
      let m := 4 * (j / 8 / 4)
      let n := 4 * (j % 8 / 4)
      let p0 : ℕ → ℚ := fun l => f (n * 8 + m + l)
      let p1 : ℕ → ℚ := fun l => f ((n + 1) * 8 + m + l)
      let p2 : ℕ → ℚ := fun l => f ((n + 2) * 8 + m + l)
      let p3 : ℕ → ℚ := fun l => f ((n + 3) * 8 + m + l)
      let q0 := interleaveLower4 p0 p2
      let q1 := interleaveLower4 p1 p3
      let q2 := interleaveUpper4 p0 p2
      let q3 := interleaveUpper4 p1 p3
      let r0 := interleaveLower4 q0 q1
      let r1 := interleaveUpper4 q0 q1
      let r2 := interleaveLower4 q2 q3
      let r3 := interleaveUpper4 q2 q3
      (match j / 8 % 4 with
        | 0 => r0 | 1 => r1 | 2 => r2 | _ => r3) (j % 8 % 4)
    else f j

/-- Transpose8x8Block, scalar branch: `to[8*n+m] = from[8*m+n]`. -/
def transpose8x8BlockScalar (f : ℕ → ℚ) : ℕ → ℚ :=
  fun j => if j < 64 then f (8 * (j % 8) + j / 8) else f j

/-- TransformFromPixels: row-pass DCT1D, transpose, column-pass DCT1D
(on the transposed buffer with stride 8), transpose. -/
def TransformFromPixels (pixels : ℕ → ℕ → ℚ) : ℕ → ℚ :=
  let scratch := DCT1D pixels
  let coefficients := transpose8x8BlockScalar scratch
  let scratch2 := DCT1D (fun i j => coefficients (i * 8 + j))
  transpose8x8BlockScalar scratch2

/-! ### Quantizers and the block-iteration driver -/

/-- QuantizeBlock: per frequency position, `qval = dct[k] * qmc[k]`;
keep `Round(qval)` when `|qval| >= zero_bias` and emit `0` otherwise
(`Ge`/`IfThenElseZero`), then demote to the signed 16-bit coefficient. -/
def QuantizeBlock (dct qmc : ℕ → ℚ) (zero_bias : ℚ) : ℕ → ℤ :=
  fun k =>
    let qval := dct k * qmc k
    demoteToI16 (if zero_bias ≤ |qval| then roundTiesToEven qval else 0)

/-- QuantizeBlockNoAQ: multiply by the quant multiplier, round, demote;
no thresholding. -/
def QuantizeBlockNoAQ (dct qmc : ℕ → ℚ) : ℕ → ℤ :=
  fun k => demoteToI16 (roundTiesToEven (dct k * qmc k))

/-- The float constant `kDCBias = 128.0f`. -/
def kDCBias : ℚ := 128

/-- Per-block zero-bias threshold of the adaptive path:
`zero_bias = 0.5f + zero_bias_mul[c] * relq`, then
`zero_bias = std::min(1.5f, zero_bias)`. -/
def zeroBiasOf (zero_bias_mul relq : ℚ) : ℚ :=
  min (3 / 2) (1 / 2 + zero_bias_mul * relq)

/-- Per-block body of the `ComputeDCTCoefficients` driver loop:
transform the 8x8 pixel window at block `(brow, bcol)` of `plane`
(the window starts at `plane->Row(8*by) + 8*bx`), quantize with the
adaptive variant (threshold from
`m->quant_field.Row(by * v_factor)[bx * h_factor]`) or the non-adaptive
one, then override the DC entry with
`std::round((dct[0] - kDCBias) * qmc[0])`. -/
def processBlock (useAQ : Bool) (plane : ℕ → ℕ → ℚ) (qmc : ℕ → ℚ)
    (zero_bias_mul : ℚ) (quant_field : ℕ → ℕ → ℚ) (h_factor v_factor : ℕ)
    (brow bcol : ℕ) : ℕ → ℤ :=
  let dct := TransformFromPixels (fun i j => plane (8 * brow + i) (8 * bcol + j))
  let base : ℕ → ℤ :=
    if useAQ then
      QuantizeBlock dct qmc
        (zeroBiasOf zero_bias_mul (quant_field (brow * v_factor) (bcol * h_factor)))
    else
      QuantizeBlockNoAQ dct qmc
  fun k => if k = 0 then roundHalfAway ((dct 0 - kDCBias) * qmc 0) else base k

/-! ### Row-band window arithmetic of `ComputeDCTCoefficients`

The driver computes, per component (all C `int`s, modelled over `ℤ`):
`by0 = next_iMCU_row * v_samp_factor`,
`block_rows_left = height_in_blocks - by0`,
`max_block_rows = min(v_samp_factor, block_rows_left)`, requests the
window `(by0, max_block_rows)` from the block store, and in the loop
over `iy < v_samp_factor` skips any `by = by0 + iy` with
`by >= height_in_blocks`. -/

/-- First block row of the band: `by0 = next_iMCU_row * v_samp_factor`. -/
def bandFirstRow (next_iMCU_row v_samp_factor : ℤ) : ℤ :=
  next_iMCU_row * v_samp_factor

/-- Rows requested from the block store:
`max_block_rows = min(v_samp_factor, height_in_blocks - by0)`. -/
def maxBlockRows (v_samp_factor height_in_blocks by0 : ℤ) : ℤ :=
  min v_samp_factor (height_in_blocks - by0)

/-- Loop iteration `iy` reaches the transform/quantize body: `iy` is in
`[0, v_samp_factor)` and `by0 + iy < height_in_blocks` (the `continue`
skips the rest). -/
def rowProcessed (v_samp_factor height_in_blocks by0 iy : ℤ) : Prop :=
  0 ≤ iy ∧ iy < v_samp_factor ∧ by0 + iy < height_in_blocks

/-- Count of zero entries among the 64 coefficients of a quantized
block. -/
def zeroCount (blockOut : ℕ → ℤ) : ℕ :=
  (List.range 64).countP (fun k => blockOut k == 0)

end jpegli

namespace btool

/-! ### Boundary comparison tool (`main` of the butteraugli driver)

Model of the flag loop `for (int i = 3; i < argc; i++)` and the usage
text.  `strtodOk` abstracts whether `strtod` consumes a prefix of its
argument (the `end == argv[i]` check); numeric values are retained as
their raw argument strings. -/

/-- The usage `fprintf` format string printed when `argc < 3` (the
`%s` is `argv[0]`). -/
def usageFormat : String :=
  "Usage: %s <reference> <distorted>\n" ++
  "  [--distmap <distmap>]\n" ++
  "  [--rawdistmap <distmap.pfm>]\n" ++
  "  [--pfm_distance <pfm_filename>]\n" ++
  "  [--intensity_target <intensity_target>]\n" ++
  "  [--colorspace <colorspace_hint>]\n" ++
  "  [--pnorm <pth norm>]\n" ++
  "NOTE: images get converted to linear sRGB for butteraugli. Images" ++
  " without attached profiles (such as ppm or pfm) are interpreted" ++
  " as nonlinear sRGB. The hint format is RGB_D65_SRG_Rel_Lin for" ++
  " linear sRGB. Intensity target is viewing conditions screen nits" ++
  ", defaults to 80.\n"

/-- Flag-derived state: `distmap`, `raw_distmap`, `pfm_distmap`,
`colorspace` (empty by default), and the raw arguments of `--pnorm`
and `--intensity_target` (defaults `3` and `80.0` when `none`). -/
structure Args where
  distmap : String
  raw_distmap : String
  pfm_distmap : String
  colorspace : String
  p : Option String
  intensity_target : Option String
deriving DecidableEq

/-- Args state before the flag loop. -/
def initialArgs : Args := ⟨"", "", "", "", none, none⟩

/-- Outcome of the flag loop. -/
inductive FlagsOutcome where
  | ok (a : Args)
  | unrecognized (flag : String)
  | badPnorm (arg : String)
deriving DecidableEq

/-- The flag loop over `argv[3..]`.  A flag only matches when a value
follows (`i + 1 < argc`); a lone trailing token therefore falls through
every guard into the `Unrecognized flag` branch, as does any token that
matches none of the six spellings. -/
def parseFlags (strtodOk : String → Bool) : List String → Args → FlagsOutcome
  | [], a => .ok a
  | [f], _ => .unrecognized f
  | f :: v :: rest, a =>
    if f = "--distmap" then parseFlags strtodOk rest { a with distmap := v }
    else if f = "--rawdistmap" then parseFlags strtodOk rest { a with raw_distmap := v }
    else if f = "--pfm-distance" then parseFlags strtodOk rest { a with pfm_distmap := v }
    else if f = "--colorspace" then parseFlags strtodOk rest { a with colorspace := v }
    else if f = "--intensity_target" then
      parseFlags strtodOk rest { a with intensity_target := some v }
    else if f = "--pnorm" then
      if strtodOk v then parseFlags strtodOk rest { a with p := some v }
      else .badPnorm v
    else .unrecognized f

/-- Result of `main` on `argv[1..]`: usage exit (`argc < 3`), a flag
diagnostic exit, or a `RunButteraugli` invocation on the two paths. -/
inductive MainOutcome where
  | usageExit
  | unrecognizedExit (flag : String)
  | badPnormExit (arg : String)
  | run (reference distorted : String) (a : Args)
deriving DecidableEq

/-- The `main` control flow on `argv[1..]`. -/
def mainTool (strtodOk : String → Bool) : List String → MainOutcome
  | reference :: distorted :: rest =>
    match parseFlags strtodOk rest initialArgs with
    | .ok a => .run reference distorted a
    | .unrecognized f => .unrecognizedExit f
    | .badPnorm s => .badPnormExit s
  | _ => .usageExit

/-- Process exit status; `runOk` is the external `RunButteraugli`
result. -/
def exitCode (runOk : Bool) : MainOutcome → ℤ
  | .run _ _ _ => if runOk then 0 else 1
  | _ => 1

/-- Whether the image comparison is reached at all. -/
def comparisonInvoked : MainOutcome → Bool
  | .run _ _ _ => true
  | _ => false

/-- The `fprintf(stderr, "Unrecognized flag \"%s\".\n", argv[i])`
diagnostic. -/
def unrecognizedFlagMsg (f : String) : String :=
  "Unrecognized flag \"" ++ f ++ "\".\n"

/-- Diagnostic printed to standard error for each failure outcome. -/
def stderrDiagnostic : MainOutcome → String
  | .usageExit => usageFormat
  | .unrecognizedExit f => unrecognizedFlagMsg f
  | .badPnormExit s => "Failed to parse pnorm \"" ++ s ++ "\".\n"
  | .run _ _ _ => ""

end btool

namespace jpegli

/-! ### Structural helper lemmas about the DCT recursion -/

/-- A kernel `F` computes each output below `m` from inputs below `m`
only. -/
def dependsOnFirst (m : ℕ) (F : (ℕ → ℚ) → ℕ → ℚ) : Prop :=
  ∀ f g : ℕ → ℚ, (∀ j, j < m → f j = g j) → ∀ k, k < m → F f k = F g k

/-- Even outputs of the generic step: `DCT1DImpl<N>(mem)[2i]` is output
`i` of the recursion on the reversed-pairing sum half. -/
theorem dct1dStep_even (n : ℕ) (rec : (ℕ → ℚ) → ℕ → ℚ) (mem : ℕ → ℚ)
    (i : ℕ) (hi : i < n / 2) (hn : 2 * i < n) :
    dct1dStep n rec mem (2 * i) =
      rec (addReverse (n / 2) mem (fun j => mem (n / 2 + j))) i := by
  have h2 : (2 * i) % 2 = 0 := by omega
  have h3 : (2 * i) / 2 = i := by omega
  simp only [dct1dStep, inverseEvenOdd, Multiply, h2, h3, if_pos hn, if_pos hi]
  rw [if_pos trivial, if_neg (by omega : ¬(n / 2 ≤ i ∧ i < n))]

/-- Odd outputs of the generic step, before evaluating the recursion:
`DCT1DImpl<N>(mem)[2i+1]` is output `i` of `B<N/2>` applied to the
recursion on the `Multiply<N>`-scaled buffer tail. -/
theorem dct1dStep_odd (n : ℕ) (rec : (ℕ → ℚ) → ℕ → ℚ) (mem : ℕ → ℚ)
    (i : ℕ) (hn : 2 * i + 1 < n) :
    dct1dStep n rec mem (2 * i + 1) =
      B (n / 2)
        (rec (fun j =>
          Multiply n
            (fun t =>
              if t < n / 2 then
                rec (addReverse (n / 2) mem (fun s => mem (n / 2 + s))) t
              else subReverse (n / 2) mem (fun s => mem (n / 2 + s)) (t - n / 2))
            (n / 2 + j))) i := by
  have h2 : (2 * i + 1) % 2 = 1 := by omega
  have h3 : (2 * i + 1) / 2 = i := by omega
  simp only [dct1dStep, inverseEvenOdd, h2, h3, if_pos hn]
  rw [if_neg (by omega : ¬(1 = 0)), if_neg (by omega : ¬n / 2 + i < n / 2),
    show n / 2 + i - n / 2 = i from by omega]

/-- The `Multiply<8>` factor seen by the difference-half recursion:
position `4 + j` of the combined buffer is the multiplier times entry
`j` of the tail. -/
theorem multiply8_shift (X Y : ℕ → ℚ) (j : ℕ) (hj : j < 4) :
    Multiply 8 (fun t => if t < 8 / 2 then X t else Y (t - 8 / 2)) (8 / 2 + j) =
      wcMultipliers 8 j * Y j := by
  simp only [Multiply]
  rw [if_pos (by omega : 8 / 2 ≤ 8 / 2 + j ∧ 8 / 2 + j < 8)]
  rw [if_neg (by omega : ¬8 / 2 + j < 8 / 2),
    show 8 / 2 + j - 8 / 2 = j from by omega]

/-- `B<4>` outputs below 4 depend only on inputs below 4. -/
theorem B4_congr (x y : ℕ → ℚ) (h : ∀ j, j < 4 → x j = y j) (i : ℕ)
    (hi : i < 4) : B 4 x i = B 4 y i := by
  interval_cases i <;>
    simp [B, h 0 (by omega), h 1 (by omega), h 2 (by omega), h 3 (by omega)]

/-- `DCT1DImpl<2>` outputs below 2 depend only on inputs below 2. -/
theorem dct1dImpl2_dependsOn : dependsOnFirst 2 dct1dImpl2 := by
  intro f g h k hk
  interval_cases k <;> simp [dct1dImpl2, h 0 (by omega), h 1 (by omega)]

/-- `DCT1DImpl<4>` outputs below 4 depend only on inputs below 4. -/
theorem dct1dImpl4_dependsOn : dependsOnFirst 4 dct1dImpl4 := by
  intro f g h k hk
  interval_cases k <;>
    simp [dct1dImpl4, dct1dStep, dct1dImpl2, addReverse, subReverse, Multiply,
      B, inverseEvenOdd, h 0 (by omega), h 1 (by omega), h 2 (by omega),
      h 3 (by omega)]

/-- `DCT1DImpl<4>` on a constant input: `4c` at frequency 0, zero
elsewhere. -/
theorem dct1dImpl4_const (c : ℚ) (k : ℕ) (hk : k < 4) :
    dct1dImpl4 (fun _ => c) k = if k = 0 then 4 * c else 0 := by
  interval_cases k <;>
    simp [dct1dImpl4, dct1dStep, dct1dImpl2, addReverse, subReverse, Multiply,
      B, inverseEvenOdd, wcMultipliers] <;> ring

/-- `B<4>` of the zero buffer is zero below 4. -/
theorem B4_zero (i : ℕ) (hi : i < 4) : B 4 (fun _ => (0 : ℚ)) i = 0 := by
  interval_cases i <;> simp [B]

/-- `DCT1DImpl<8>` on a constant input: `8c` at frequency 0, zero
elsewhere. -/
theorem dct1dImpl8_const (c : ℚ) (k : ℕ) (hk : k < 8) :
    dct1dImpl8 (fun _ => c) k = if k = 0 then 8 * c else 0 := by
  obtain ⟨i, rfl | rfl⟩ := Nat.even_or_odd' k
  · rw [show dct1dImpl8 = dct1dStep 8 dct1dImpl4 from rfl,
      dct1dStep_even 8 dct1dImpl4 (fun _ => c) i (by omega) (by omega),
      show (addReverse (8 / 2) (fun _ => c) fun j => (fun _ : ℕ => c) (8 / 2 + j)) =
        (fun _ => c + c) from rfl,
      dct1dImpl4_const (c + c) i (by omega)]
    rcases eq_or_ne i 0 with h0 | h0
    · subst h0; norm_num; ring
    · rw [if_neg h0, if_neg (by omega : ¬2 * i = 0)]
  · rw [show dct1dImpl8 = dct1dStep 8 dct1dImpl4 from rfl,
      dct1dStep_odd 8 dct1dImpl4 (fun _ => c) i (by omega),
      if_neg (by omega : ¬2 * i + 1 = 0)]
    have hz : ∀ j, j < 4 → dct1dImpl4 (fun _ => (0 : ℚ)) j = 0 := by
      intro j hj; rw [dct1dImpl4_const 0 j hj]; simp
    refine ((B4_congr _ (fun _ => (0 : ℚ)) ?_ i (by omega)).trans
      (B4_zero i (by omega)))
    intro j hj
    refine ((dct1dImpl4_dependsOn _ (fun _ => (0 : ℚ)) ?_ j hj).trans (hz j hj))
    intro t ht
    rw [multiply8_shift _ _ t ht]
    simp [subReverse]

/-- `DCT1DImpl<8>` outputs below 8 depend only on inputs below 8. -/
theorem dct1dImpl8_dependsOn : dependsOnFirst 8 dct1dImpl8 := by
  intro f g h k hk
  obtain ⟨i, rfl | rfl⟩ := Nat.even_or_odd' k
  · rw [show dct1dImpl8 = dct1dStep 8 dct1dImpl4 from rfl,
      dct1dStep_even 8 dct1dImpl4 f i (by omega) (by omega),
      dct1dStep_even 8 dct1dImpl4 g i (by omega) (by omega)]
    refine dct1dImpl4_dependsOn _ _ ?_ i (by omega)
    intro t ht
    simp only [addReverse]
    rw [h t (by omega), h (8 / 2 + (8 / 2 - t - 1)) (by omega)]
  · rw [show dct1dImpl8 = dct1dStep 8 dct1dImpl4 from rfl,
      dct1dStep_odd 8 dct1dImpl4 f i (by omega),
      dct1dStep_odd 8 dct1dImpl4 g i (by omega)]
    refine B4_congr _ _ ?_ i (by omega)
    intro j hj
    refine dct1dImpl4_dependsOn _ _ ?_ j hj
    intro t ht
    rw [multiply8_shift _ _ t ht, multiply8_shift _ _ t ht]
    simp only [subReverse]
    rw [h t (by omega), h (8 / 2 + (8 / 2 - t - 1)) (by omega)]

/-- DCT1D of a constant window: `c` across the first output row, zero
below. -/
theorem DCT1D_const (c : ℚ) (j : ℕ) (hj : j < 64) :
    DCT1D (fun _ _ => c) j = if j < 8 then c else 0 := by
  simp only [DCT1D]
  rcases Nat.lt_or_ge j 8 with h | h
  · rw [Nat.div_eq_of_lt h, dct1dImpl8_const c 0 (by omega), if_pos rfl,
      if_pos h]
    ring
  · rw [dct1dImpl8_const c (j / 8) (by omega), if_neg (by omega : ¬j / 8 = 0),
      if_neg (by omega : ¬j < 8)]
    ring

/-- Transposed first pass of a constant window: `c` down the first
column, zero elsewhere. -/
theorem trans_DCT1D_const (c : ℚ) (j : ℕ) (hj : j < 64) :
    transpose8x8BlockScalar (DCT1D (fun _ _ => c)) j =
      if j % 8 = 0 then c else 0 := by
  simp only [transpose8x8BlockScalar]
  rw [if_pos hj, DCT1D_const c _ (by omega)]
  by_cases h : j % 8 = 0
  · rw [if_pos (by omega : 8 * (j % 8) + j / 8 < 8), if_pos h]
  · rw [if_neg (by omega : ¬8 * (j % 8) + j / 8 < 8), if_neg h]

/-- DCT1D is column-wise: outputs agree whenever the two pixel windows
agree on the 8x8 block. -/
theorem DCT1D_congrCols (p q : ℕ → ℕ → ℚ)
    (h : ∀ i j, i < 8 → j < 8 → p i j = q i j) (t : ℕ) (ht : t < 64) :
    DCT1D p t = DCT1D q t := by
  simp only [DCT1D]
  rw [dct1dImpl8_dependsOn (fun i => p i (t % 8)) (fun i => q i (t % 8))
    (fun i hi => h i (t % 8) hi (by omega)) (t / 8) (by omega)]

/-- The full 2D transform of a constant block: `c` at DC, zero at every
AC position. -/
theorem TransformFromPixels_const (c : ℚ) (k : ℕ) (hk : k < 64) :
    TransformFromPixels (fun _ _ => c) k = if k = 0 then c else 0 := by
  simp only [TransformFromPixels, transpose8x8BlockScalar]
  rw [if_pos hk]
  refine Eq.trans
    (DCT1D_congrCols _ (fun _ j2 => if j2 = 0 then c else 0) ?_
      (8 * (k % 8) + k / 8) (by omega)) ?_
  · intro i j2 hi hj2
    rw [show (if i * 8 + j2 < 64 then
          DCT1D (fun _ _ => c) (8 * ((i * 8 + j2) % 8) + (i * 8 + j2) / 8)
        else DCT1D (fun _ _ => c) (i * 8 + j2)) =
        transpose8x8BlockScalar (DCT1D (fun _ _ => c)) (i * 8 + j2) from rfl,
      trans_DCT1D_const c (i * 8 + j2) (by omega),
      show (i * 8 + j2) % 8 = j2 from by omega]
  · simp only [DCT1D]
    rw [show (8 * (k % 8) + k / 8) % 8 = k / 8 from by omega,
        show (8 * (k % 8) + k / 8) / 8 = k % 8 from by omega,
        dct1dImpl8_const (if k / 8 = 0 then c else 0) (k % 8) (by omega)]
    by_cases hk0 : k = 0
    · subst hk0; norm_num; ring
    · rw [if_neg hk0]
      by_cases h1 : k % 8 = 0
      · rw [if_pos h1, if_neg (by omega : ¬k / 8 = 0)]; ring
      · rw [if_neg h1]; ring

/-! ### Theorems -/

/-- Modelled from the spec's stated order for the odd-indexed outputs
at size N = 8: recursively transform the difference half at size 4,
then the boundary correction `B`, and only after that the
odd-frequency multiplier table. -/
def specOrderOddOutputs8 (mem : ℕ → ℚ) : ℕ → ℚ :=
  fun i =>
    wcMultipliers 8 i *
      B 4 (dct1dImpl4 (subReverse 4 mem (fun t => mem (4 + t)))) i

/-- An impulse input on which the two operation orders differ. -/
def oddOrderProbe : ℕ → ℚ := fun j => if j = 7 then 1 else 0

/-- C3 (counterexample): the engine's second odd output on the impulse
input differs from the spec-ordered pipeline (transform, boundary
correction, then multipliers), so the code does not implement that
order. -/
theorem dct_odd_order_spec_counterexample :
    dct1dImpl8 oddOrderProbe 3 ≠ specOrderOddOutputs8 oddOrderProbe 1 := by
  have hL : dct1dImpl8 oddOrderProbe 3 =
      B 4 (dct1dImpl4 (fun j =>
        wcMultipliers 8 j *
          subReverse 4 oddOrderProbe (fun t => oddOrderProbe (4 + t)) j)) 1 := by
    rw [show dct1dImpl8 = dct1dStep 8 dct1dImpl4 from rfl,
      show (3 : ℕ) = 2 * 1 + 1 from rfl,
      dct1dStep_odd 8 dct1dImpl4 oddOrderProbe 1 (by omega)]
    refine B4_congr _ _ ?_ 1 (by omega)
    intro j hj
    refine dct1dImpl4_dependsOn _ _ ?_ j hj
    intro t ht
    rw [multiply8_shift _ _ t ht]
  rw [hL]
  simp only [specOrderOddOutputs8, dct1dImpl4, dct1dStep, dct1dImpl2, addReverse,
    subReverse, Multiply, B, inverseEvenOdd, wcMultipliers, oddOrderProbe, kSqrt2]
  norm_num

/-- C3 (amended): the odd-indexed outputs of `DCT1DImpl<8>` are
obtained by multiplying the reversed-pairing difference half by the
odd-frequency multiplier table first, then recursively transforming it
at size 4, and applying the boundary correction `B` last. -/
theorem dct_odd_outputs_order (mem : ℕ → ℚ) (i : ℕ) (hi : i < 4) :
    dct1dImpl8 mem (2 * i + 1) =
      B 4 (dct1dImpl4 (fun j =>
        wcMultipliers 8 j * subReverse 4 mem (fun t => mem (4 + t)) j)) i := by
  rw [show dct1dImpl8 = dct1dStep 8 dct1dImpl4 from rfl,
    dct1dStep_odd 8 dct1dImpl4 mem i (by omega)]
  refine B4_congr _ _ ?_ i hi
  intro j hj
  refine dct1dImpl4_dependsOn _ _ ?_ j hj
  intro t ht
  rw [multiply8_shift _ _ t ht]

/-- Witness for `dct_odd_outputs_order` at the impulse input and
`i = 1`. -/
theorem dct_odd_outputs_order_witness :
    dct1dImpl8 oddOrderProbe (2 * 1 + 1) =
      B 4 (dct1dImpl4 (fun j =>
        wcMultipliers 8 j *
          subReverse 4 oddOrderProbe (fun t => oddOrderProbe (4 + t)) j)) 1 :=
  dct_odd_outputs_order oddOrderProbe 1 (by decide)

/-- C5: the full-width interleave transpose, the 4-lane block
transpose, and the scalar double loop all produce the exact permutation
`to[8*n+m] = from[8*m+n]`, with no numeric change to any element. -/
theorem transpose_strategies_agree (f : ℕ → ℚ) (j : ℕ) (hj : j < 64) :
    transpose8x8Block256 f j = f (8 * (j % 8) + j / 8) ∧
    transpose8x8Block128 f j = f (8 * (j % 8) + j / 8) ∧
    transpose8x8BlockScalar f j = f (8 * (j % 8) + j / 8) := by
  interval_cases j <;> exact ⟨rfl, rfl, rfl⟩

/-- Witness for `transpose_strategies_agree` at a concrete buffer and
index. -/
theorem transpose_strategies_agree_witness :
    transpose8x8Block256 (fun k => (k : ℚ)) 13 = ((8 * (13 % 8) + 13 / 8 : ℕ) : ℚ) ∧
    transpose8x8Block128 (fun k => (k : ℚ)) 13 = ((8 * (13 % 8) + 13 / 8 : ℕ) : ℚ) ∧
    transpose8x8BlockScalar (fun k => (k : ℚ)) 13 = ((8 * (13 % 8) + 13 / 8 : ℕ) : ℚ) :=
  transpose_strategies_agree (fun k => (k : ℚ)) 13 (by decide)

/-- C6: applying the 8x8 transpose twice yields the original buffer. -/
theorem transpose_involution (f : ℕ → ℚ) (j : ℕ) (hj : j < 64) :
    transpose8x8BlockScalar (transpose8x8BlockScalar f) j = f j := by
  interval_cases j <;> rfl

/-- Witness for `transpose_involution` at a concrete buffer and
index. -/
theorem transpose_involution_witness :
    transpose8x8BlockScalar (transpose8x8BlockScalar (fun k => (k : ℚ))) 37 =
      ((37 : ℕ) : ℚ) :=
  transpose_involution (fun k => (k : ℚ)) 37 (by decide)

/-- Values already inside the signed 16-bit range pass through the
demotion unchanged. -/
theorem demoteToI16_of_abs_le (z : ℤ) (h : |z| ≤ 32767) : demoteToI16 z = z := by
  have := abs_le.mp h
  unfold demoteToI16
  omega

/-- Demotion of zero is zero. -/
theorem demoteToI16_zero : demoteToI16 0 = 0 := by
  unfold demoteToI16
  omega

/-- Rounding zero gives zero. -/
theorem roundTiesToEven_zero : roundTiesToEven 0 = 0 := by
  norm_num [roundTiesToEven]

/-- The DC rounding of zero gives zero. -/
theorem roundHalfAway_zero : roundHalfAway 0 = 0 := by
  have h : ⌊(1 : ℚ) / 2⌋ = 0 := by
    rw [Int.floor_eq_zero_iff]
    constructor <;> norm_num
  norm_num [roundHalfAway, h]

/-- C1: with adaptive quantization enabled, the emitted value at each
of the 64 frequency positions is zero when `|coefficient * multiplier|`
is strictly below the per-block threshold and the rounded product
otherwise, where the threshold is
`min(1.5, 0.5 + zero_bias_mul[c] * relq)` with `relq` read from the
adaptive field at the block coordinates scaled by the component's
sampling factors.  (The rounded product is assumed to be inside the
16-bit coefficient range, the range invariant the spec places on
upstream inputs.) -/
theorem adaptive_quantize_deadzone (dct qmc : ℕ → ℚ) (zero_bias_mul : ℚ)
    (quant_field : ℕ → ℕ → ℚ) (h_factor v_factor brow bcol k : ℕ) (hk : k < 64)
    (hr : |roundTiesToEven (dct k * qmc k)| ≤ 32767) :
    QuantizeBlock dct qmc
        (zeroBiasOf zero_bias_mul
          (quant_field (brow * v_factor) (bcol * h_factor))) k =
      if |dct k * qmc k| <
          min (3 / 2)
            (1 / 2 +
              zero_bias_mul * quant_field (brow * v_factor) (bcol * h_factor))
      then 0
      else roundTiesToEven (dct k * qmc k) := by
  simp only [QuantizeBlock, zeroBiasOf]
  by_cases hc :
      min (3 / 2)
          (1 / 2 + zero_bias_mul * quant_field (brow * v_factor) (bcol * h_factor)) ≤
        |dct k * qmc k|
  · rw [if_pos hc, if_neg (not_lt.mpr hc), demoteToI16_of_abs_le _ hr]
  · rw [if_neg hc, if_pos (not_le.mp hc)]
    exact demoteToI16_zero

/-- Witness for `adaptive_quantize_deadzone` at concrete inputs. -/
theorem adaptive_quantize_deadzone_witness :
    QuantizeBlock (fun _ => 0) (fun _ => 1) (zeroBiasOf 1 1) 5 =
      if |(0 : ℚ) * 1| < min (3 / 2) (1 / 2 + 1 * 1) then 0
      else roundTiesToEven (0 * 1) :=
  adaptive_quantize_deadzone (fun _ => 0) (fun _ => 1) 1 (fun _ _ => 1) 1 1 2 3 5
    (by norm_num) (by norm_num [roundTiesToEven])

/-- C2: in both quantizer variants, the driver overrides the DC entry
after the per-frequency loop with
`round((unquantized DC - 128) * qmc[0])`, so the DC position is always
populated and never subject to the dead-zone rule. -/
theorem dc_override (useAQ : Bool) (plane : ℕ → ℕ → ℚ) (qmc : ℕ → ℚ)
    (zero_bias_mul : ℚ) (quant_field : ℕ → ℕ → ℚ)
    (h_factor v_factor brow bcol : ℕ) :
    processBlock useAQ plane qmc zero_bias_mul quant_field h_factor v_factor
        brow bcol 0 =
      roundHalfAway
        ((TransformFromPixels
            (fun i j => plane (8 * brow + i) (8 * bcol + j)) 0 - 128) * qmc 0) :=
  rfl

/-- C4: a block whose 64 samples all equal 128 quantizes to the all-zero
coefficient block under either variant, for any quant-multiplier table
and any adaptive-field value. -/
theorem constant_block_quantizes_to_zero (useAQ : Bool) (qmc : ℕ → ℚ)
    (zero_bias_mul : ℚ) (quant_field : ℕ → ℕ → ℚ)
    (h_factor v_factor brow bcol k : ℕ) (hk : k < 64) :
    processBlock useAQ (fun _ _ => 128) qmc zero_bias_mul quant_field h_factor
      v_factor brow bcol k = 0 := by
  have hdct : ∀ n, n < 64 →
      TransformFromPixels
          (fun i j => (fun _ _ : ℕ => (128 : ℚ)) (8 * brow + i) (8 * bcol + j)) n =
        if n = 0 then 128 else 0 :=
    fun n hn => TransformFromPixels_const 128 n hn
  simp only [processBlock]
  rcases eq_or_ne k 0 with rfl | hk0
  · rw [if_pos rfl, hdct 0 (by omega)]
    norm_num [kDCBias, roundHalfAway_zero]
  · rw [if_neg hk0]
    cases useAQ
    · simp only [Bool.false_eq_true, if_false, QuantizeBlockNoAQ]
      rw [hdct k hk, if_neg hk0, zero_mul, roundTiesToEven_zero, demoteToI16_zero]
    · simp only [if_true, QuantizeBlock]
      rw [hdct k hk, if_neg hk0, zero_mul, abs_zero, roundTiesToEven_zero]
      split <;> exact demoteToI16_zero

/-- Witness for `constant_block_quantizes_to_zero` at concrete inputs. -/
theorem constant_block_quantizes_to_zero_witness :
    processBlock true (fun _ _ => 128) (fun _ => 1) 1 (fun _ _ => 1) 1 1 0 0 7 = 0 :=
  constant_block_quantizes_to_zero true (fun _ => 1) 1 (fun _ _ => 1) 1 1 0 0 7
    (by decide)

/-- A coefficient emitted as zero at a lower threshold is still emitted
as zero at any higher threshold. -/
theorem quantize_zero_mono (dct qmc : ℕ → ℚ) (th₁ th₂ : ℚ) (h : th₁ ≤ th₂)
    (k : ℕ) (h0 : QuantizeBlock dct qmc th₁ k = 0) :
    QuantizeBlock dct qmc th₂ k = 0 := by
  simp only [QuantizeBlock] at h0 ⊢
  by_cases hc : th₂ ≤ |dct k * qmc k|
  · rw [if_pos hc]
    rw [if_pos (le_trans h hc)] at h0
    have hz : roundTiesToEven (dct k * qmc k) = 0 := by
      unfold demoteToI16 at h0; omega
    rw [hz]; exact demoteToI16_zero
  · rw [if_neg hc]; exact demoteToI16_zero

/-- C7 (amended): when the adaptive-field value is nonnegative,
increasing the zero-bias multiplier never decreases the number of zero
coefficients emitted by the adaptive quantizer. -/
theorem zero_bias_monotonicity (dct qmc : ℕ → ℚ) (zbm₁ zbm₂ relq : ℚ)
    (hrelq : 0 ≤ relq) (hz : zbm₁ ≤ zbm₂) :
    zeroCount (QuantizeBlock dct qmc (zeroBiasOf zbm₁ relq)) ≤
      zeroCount (QuantizeBlock dct qmc (zeroBiasOf zbm₂ relq)) := by
  have hth : zeroBiasOf zbm₁ relq ≤ zeroBiasOf zbm₂ relq := by
    have hm : zbm₁ * relq ≤ zbm₂ * relq := mul_le_mul_of_nonneg_right hz hrelq
    exact min_le_min le_rfl (by linarith)
  unfold zeroCount
  refine List.countP_mono_left ?_
  intro a _ ha
  simp only [beq_iff_eq] at ha ⊢
  exact quantize_zero_mono dct qmc _ _ hth a ha

/-- Witness for `zero_bias_monotonicity` at concrete inputs. -/
theorem zero_bias_monotonicity_witness :
    zeroCount (QuantizeBlock (fun _ => 0) (fun _ => 1) (zeroBiasOf 1 2)) ≤
      zeroCount (QuantizeBlock (fun _ => 0) (fun _ => 1) (zeroBiasOf 3 2)) :=
  zero_bias_monotonicity (fun _ => 0) (fun _ => 1) 1 3 2 (by norm_num)
    (by norm_num)

/-- Coefficient buffer with a single 1 at frequency 1, zero elsewhere. -/
def cexDct : ℕ → ℚ := fun k => if k = 1 then 1 else 0

/-- All-ones quant-multiplier table. -/
def cexQmc : ℕ → ℚ := fun _ => 1

/-- C7 (counterexample): with the adaptive-field value fixed at -1,
raising the zero-bias multiplier from -1 to 0 lowers the threshold from
1.5 to 0.5 and strictly decreases the number of zero coefficients, so
the claim fails without a sign restriction on the adaptive field. -/
theorem zero_bias_monotonicity_counterexample :
    (-1 : ℚ) ≤ 0 ∧
      zeroCount (QuantizeBlock cexDct cexQmc (zeroBiasOf 0 (-1))) <
        zeroCount (QuantizeBlock cexDct cexQmc (zeroBiasOf (-1) (-1))) := by
  refine ⟨by norm_num, ?_⟩
  have e_hi : zeroBiasOf (-1) (-1) = 3 / 2 := by
    simp [zeroBiasOf]; norm_num [min_def]
  have e_lo : zeroBiasOf 0 (-1) = 1 / 2 := by
    simp [zeroBiasOf]; norm_num [min_def]
  rw [e_lo, e_hi]
  have h_high : ∀ k, QuantizeBlock cexDct cexQmc (3 / 2) k = 0 := by
    intro k
    simp only [QuantizeBlock, cexDct, cexQmc]
    rcases eq_or_ne k 1 with rfl | hk
    · rw [if_pos rfl, if_neg (by norm_num : ¬(3 / 2 : ℚ) ≤ |(1 : ℚ) * 1|)]
      exact demoteToI16_zero
    · rw [if_neg hk, if_neg (by norm_num : ¬(3 / 2 : ℚ) ≤ |(0 : ℚ) * 1|)]
      exact demoteToI16_zero
  have h_low : ∀ k,
      QuantizeBlock cexDct cexQmc (1 / 2) k = if k = 1 then 1 else 0 := by
    intro k
    simp only [QuantizeBlock, cexDct, cexQmc]
    rcases eq_or_ne k 1 with rfl | hk
    · rw [if_pos rfl, if_pos (by norm_num : (1 / 2 : ℚ) ≤ |(1 : ℚ) * 1|),
        if_pos rfl]
      have h1 : roundTiesToEven ((1 : ℚ) * 1) = 1 := by
        norm_num [roundTiesToEven]
      rw [h1]; unfold demoteToI16; omega
    · rw [if_neg hk, if_neg (by norm_num : ¬(1 / 2 : ℚ) ≤ |(0 : ℚ) * 1|),
        if_neg hk]
      exact demoteToI16_zero
  have c_high : zeroCount (QuantizeBlock cexDct cexQmc (3 / 2)) = 64 := by
    unfold zeroCount
    have hcong : ∀ x ∈ List.range 64,
        ((QuantizeBlock cexDct cexQmc (3 / 2) x == 0) = true ↔
          ((fun _ : ℕ => true) x) = true) :=
      fun x _ => by simp [h_high x]
    rw [List.countP_congr hcong]
    decide
  have c_low : zeroCount (QuantizeBlock cexDct cexQmc (1 / 2)) = 63 := by
    unfold zeroCount
    have hcong : ∀ x ∈ List.range 64,
        ((QuantizeBlock cexDct cexQmc (1 / 2) x == 0) = true ↔
          ((fun x : ℕ => decide (x ≠ 1)) x) = true) :=
      fun x _ => by rw [h_low x]; by_cases hx : x = 1 <;> simp [hx]
    rw [List.countP_congr hcong]
    decide
  omega

/-- C8: row-band bounds of the driver.  Every loop iteration that
reaches the block body has its block row strictly below the component's
block-row count and its window index inside the requested window; the
window starts at the band's first block row, spans at most
`min(v_samp_factor, remaining rows)`, and never extends past the
block-row count. -/
theorem band_window_in_range (next_iMCU_row v_samp_factor height_in_blocks : ℤ)
    (hn : 0 ≤ next_iMCU_row) (hv : 0 ≤ v_samp_factor) :
    (∀ iy, rowProcessed v_samp_factor height_in_blocks
        (bandFirstRow next_iMCU_row v_samp_factor) iy →
        bandFirstRow next_iMCU_row v_samp_factor + iy < height_in_blocks) ∧
    (∀ iy, rowProcessed v_samp_factor height_in_blocks
        (bandFirstRow next_iMCU_row v_samp_factor) iy →
        0 ≤ iy ∧ iy < maxBlockRows v_samp_factor height_in_blocks
          (bandFirstRow next_iMCU_row v_samp_factor)) ∧
    maxBlockRows v_samp_factor height_in_blocks
        (bandFirstRow next_iMCU_row v_samp_factor) ≤ v_samp_factor ∧
    0 ≤ bandFirstRow next_iMCU_row v_samp_factor ∧
    bandFirstRow next_iMCU_row v_samp_factor +
        maxBlockRows v_samp_factor height_in_blocks
          (bandFirstRow next_iMCU_row v_samp_factor) ≤ height_in_blocks := by
  unfold rowProcessed bandFirstRow maxBlockRows
  refine ⟨?_, ?_, ?_, ?_, ?_⟩
  · rintro iy ⟨h1, h2, h3⟩; exact h3
  · rintro iy ⟨h1, h2, h3⟩
    exact ⟨h1, lt_min h2 (by omega)⟩
  · exact min_le_left _ _
  · exact mul_nonneg hn hv
  · have h := min_le_right v_samp_factor
      (height_in_blocks - next_iMCU_row * v_samp_factor)
    omega

/-- Witness for `band_window_in_range` at a concrete band. -/
theorem band_window_in_range_witness :
    (∀ iy, rowProcessed 2 5 (bandFirstRow 1 2) iy →
        bandFirstRow 1 2 + iy < 5) ∧
    (∀ iy, rowProcessed 2 5 (bandFirstRow 1 2) iy →
        0 ≤ iy ∧ iy < maxBlockRows 2 5 (bandFirstRow 1 2)) ∧
    maxBlockRows 2 5 (bandFirstRow 1 2) ≤ 2 ∧
    0 ≤ bandFirstRow 1 2 ∧
    bandFirstRow 1 2 + maxBlockRows 2 5 (bandFirstRow 1 2) ≤ 5 :=
  band_window_in_range 1 2 5 (by norm_num) (by norm_num)

/-- C9: the adaptive threshold is clamped above at 1.5 but has no lower
clamp: it lies in [0.5, 1.5] exactly when
`zero_bias_mul * relq >= 0`, drops below 0.5 when that product is
negative, and once the threshold is nonpositive the dead-zone
comparison holds at every position, so the adaptive quantizer zeroes
nothing beyond ordinary rounding (it coincides with the non-adaptive
variant). -/
theorem zero_bias_threshold_range :
    (∀ zbm relq : ℚ, zeroBiasOf zbm relq ≤ 3 / 2) ∧
    (∀ zbm relq : ℚ, 0 ≤ zbm * relq → 1 / 2 ≤ zeroBiasOf zbm relq) ∧
    (∀ zbm relq : ℚ, zbm * relq < 0 → zeroBiasOf zbm relq < 1 / 2) ∧
    ∀ (dct qmc : ℕ → ℚ) (th : ℚ), th ≤ 0 → ∀ k,
      th ≤ |dct k * qmc k| ∧
      QuantizeBlock dct qmc th k = QuantizeBlockNoAQ dct qmc k := by
  refine ⟨?_, ?_, ?_, ?_⟩
  · intro zbm relq; exact min_le_left _ _
  · intro zbm relq h
    exact le_min (by norm_num) (by linarith)
  · intro zbm relq h
    calc zeroBiasOf zbm relq ≤ 1 / 2 + zbm * relq := min_le_right _ _
      _ < 1 / 2 := by linarith
  · intro dct qmc th hth k
    have habs : th ≤ |dct k * qmc k| := le_trans hth (abs_nonneg _)
    exact ⟨habs, by simp only [QuantizeBlock, QuantizeBlockNoAQ, if_pos habs]⟩

/-- Witness for `zero_bias_threshold_range` at concrete inputs. -/
theorem zero_bias_threshold_range_witness :
    zeroBiasOf 2 3 ≤ 3 / 2 ∧ 1 / 2 ≤ zeroBiasOf 2 3 ∧
      zeroBiasOf 1 (-1) < 1 / 2 ∧
      ((-1 : ℚ) ≤ |(0 : ℚ) * 1| ∧
        QuantizeBlock (fun _ => 0) (fun _ => 1) (-1) 5 =
          QuantizeBlockNoAQ (fun _ => 0) (fun _ => 1) 5) :=
  ⟨zero_bias_threshold_range.1 2 3,
   zero_bias_threshold_range.2.1 2 3 (by norm_num),
   zero_bias_threshold_range.2.2.1 1 (-1) (by norm_num),
   zero_bias_threshold_range.2.2.2 (fun _ => 0) (fun _ => 1) (-1) (by norm_num) 5⟩

end jpegli

namespace btool

/-- Usage text up to the PFM flag spelling it advertises. -/
def usagePre : String :=
  "Usage: %s <reference> <distorted>\n" ++
  "  [--distmap <distmap>]\n" ++
  "  [--rawdistmap <distmap.pfm>]\n" ++
  "  ["

/-- Usage text after the PFM flag spelling it advertises. -/
def usagePost : String :=
  " <pfm_filename>]\n" ++
  "  [--intensity_target <intensity_target>]\n" ++
  "  [--colorspace <colorspace_hint>]\n" ++
  "  [--pnorm <pth norm>]\n" ++
  "NOTE: images get converted to linear sRGB for butteraugli. Images" ++
  " without attached profiles (such as ppm or pfm) are interpreted" ++
  " as nonlinear sRGB. The hint format is RGB_D65_SRG_Rel_Lin for" ++
  " linear sRGB. Intensity target is viewing conditions screen nits" ++
  ", defaults to 80.\n"

/-- C10: the flag loop accepts the PFM distance-map flag only as
`--pfm-distance`, while the usage text advertises `--pfm_distance`; an
invocation passing the underscore spelling (or any other unrecognized
token) after the two image paths gets the `Unrecognized flag`
diagnostic on standard error and exit status 1, without the images
ever being compared. -/
theorem pfm_flag_spelling :
    (∀ (strtodOk : String → Bool) (reference distorted v : String),
      mainTool strtodOk [reference, distorted, "--pfm-distance", v] =
        .run reference distorted { initialArgs with pfm_distmap := v }) ∧
    (∀ (strtodOk : String → Bool) (reference distorted : String)
        (more : List String) (runOk : Bool),
      mainTool strtodOk (reference :: distorted :: "--pfm_distance" :: more) =
          .unrecognizedExit "--pfm_distance" ∧
        exitCode runOk
          (mainTool strtodOk
            (reference :: distorted :: "--pfm_distance" :: more)) = 1 ∧
        comparisonInvoked
          (mainTool strtodOk
            (reference :: distorted :: "--pfm_distance" :: more)) = false ∧
        stderrDiagnostic
          (mainTool strtodOk
            (reference :: distorted :: "--pfm_distance" :: more)) =
          "Unrecognized flag \"--pfm_distance\".\n") ∧
    (∀ (strtodOk : String → Bool) (reference distorted t : String)
        (more : List String),
      t ∉ (["--distmap", "--rawdistmap", "--pfm-distance", "--colorspace",
            "--intensity_target", "--pnorm"] : List String) →
      mainTool strtodOk (reference :: distorted :: t :: more) =
        .unrecognizedExit t) ∧
    usageFormat = usagePre ++ "--pfm_distance" ++ usagePost := by
  refine ⟨?_, ?_, ?_, ?_⟩
  · intro strtodOk reference distorted v
    rfl
  · intro strtodOk reference distorted more runOk
    cases more <;> exact ⟨rfl, rfl, rfl, rfl⟩
  · intro strtodOk reference distorted t more h
    simp only [List.mem_cons, List.not_mem_nil, or_false, not_or] at h
    obtain ⟨h1, h2, h3, h4, h5, h6⟩ := h
    cases more with
    | nil => rfl
    | cons v rest =>
      simp only [mainTool, parseFlags, if_neg h1, if_neg h2, if_neg h3,
        if_neg h4, if_neg h5, if_neg h6]
  · rfl

/-- Witness for `pfm_flag_spelling` at a concrete invocation with an
unrecognized flag. -/
theorem pfm_flag_spelling_witness :
    mainTool (fun _ => true) ("ref.png" :: "dist.png" :: "--bogus" :: ["x"]) =
      .unrecognizedExit "--bogus" :=
  pfm_flag_spelling.2.2.1 (fun _ => true) "ref.png" "dist.png" "--bogus" ["x"]
    (by decide)

end btool

